import Mathlib

/-!
Verification of the forecasting adapter code in
`mmf_sa/models/moiraiforecast/MoiraiPipeline.py` and
`mmf_sa/models/momentforecast/MomentPipeline.py`: horizon-timestamp
generation, fixed- and variable-context tensor construction, batch
accumulation in the pandas UDFs, series grouping, and metric computation.

Timestamps are modelled as integers (epoch offsets); adding the configured
frequency offset (`self.one_ts_offset`, a pandas `DateOffset`) is modelled by
an abstract step function `step : Int → Int`, strictly increasing when the
offset is a positive calendar step.  Values are modelled as rationals.
Operations that raise Python exceptions are modelled with `Option`.
-/

/-- Horizon loop body from `create_horizon_timestamps_udf`
(MoiraiPipeline.py lines 32-35, identically MomentPipeline.py): starting from
`last`, repeatedly set `last = last + one_ts_offset` and append the new value,
`predictionLength` times. -/
def genHorizon (step : Int → Int) : Int → Nat → List Int
  | _, 0 => []
  | last, n + 1 => step last :: genHorizon step (step last) n

/-- Maximum of a series of timestamps, `series.max()` in the UDF.  The series
element is a numpy array there, whose `.max()` raises `ValueError` on an empty
array; `none` models that exception. -/
def seriesMax (series : List Int) : Option Int := series.max?

/-- Horizon timestamps for one series (MoiraiPipeline.py lines 30-36):
`last = series.max()`, then the generation loop. -/
def horizonTimestamps (step : Int → Int) (predictionLength : Nat)
    (series : List Int) : Option (List Int) :=
  (seriesMax series).map (fun last => genHorizon step last predictionLength)

/-- Closed form of the generation loop: element `i` is `step` iterated
`i + 1` times on the starting timestamp. -/
theorem genHorizon_eq_map (step : Int → Int) (last : Int) (n : Nat) :
    genHorizon step last n = (List.range n).map (fun i => step^[i + 1] last) := by
  induction n generalizing last with
  | zero => rfl
  | succ n ih =>
    rw [genHorizon, ih, List.range_succ_eq_map, List.map_cons, List.map_map]
    refine congrArg₂ _ (by simp) (List.map_congr_left fun i _ => ?_)
    simp [Function.comp, Function.iterate_succ_apply]

/-- Iterating a strictly inflationary step at least once is strictly
inflationary. -/
theorem lt_iterate_of_lt_step (step : Int → Int) (hstep : ∀ t, t < step t)
    (m : Nat) (hm : 0 < m) (x : Int) : x < step^[m] x := by
  induction m with
  | zero => omega
  | succ m ih =>
    rcases Nat.eq_zero_or_pos m with h0 | hpos
    · subst h0; simpa using hstep x
    · calc x < step^[m] x := ih hpos
        _ < step^[m + 1] x := by
            rw [Function.iterate_succ_apply']; exact hstep _

/-- C1: for every non-empty series and positive prediction length, the horizon
generator returns exactly `predictionLength` timestamps; the first equals the
maximum observed timestamp plus the frequency offset, each subsequent one
equals its predecessor plus the offset, and the sequence is strictly
increasing. -/
theorem horizon_timestamps_correct (step : Int → Int) (predictionLength : Nat)
    (series : List Int) (hne : series ≠ []) (hlen : 0 < predictionLength)
    (hstep : ∀ t, t < step t) :
    ∃ m ts, seriesMax series = some m ∧
      horizonTimestamps step predictionLength series = some ts ∧
      ts.length = predictionLength ∧
      ts.head? = some (step m) ∧
      (∀ i : Nat, (h : i + 1 < ts.length) →
        ts.get ⟨i + 1, h⟩ = step (ts.get ⟨i, Nat.lt_of_succ_lt h⟩)) ∧
      ts.Pairwise (· < ·) := by
  obtain ⟨m, hm⟩ : ∃ m, series.max? = some m := by
    cases h : series.max? with
    | none => exact absurd (List.max?_eq_none_iff.mp h) hne
    | some m => exact ⟨m, rfl⟩
  refine ⟨m, genHorizon step m predictionLength, hm, ?_, ?_, ?_, ?_, ?_⟩
  · simp [horizonTimestamps, seriesMax, hm]
  · rw [genHorizon_eq_map]; simp
  · obtain ⟨k, rfl⟩ := Nat.exists_eq_add_of_lt hlen
    rw [genHorizon_eq_map, List.range_succ_eq_map]
    simp
  · intro i h
    simp only [genHorizon_eq_map, List.get_eq_getElem, List.getElem_map,
      List.getElem_range] at h ⊢
    rw [Function.iterate_succ_apply']
  · rw [genHorizon_eq_map]
    rw [List.pairwise_map]
    refine (List.pairwise_lt_range predictionLength).imp ?_
    intro a b hab
    have hsplit : step^[b + 1] m = step^[b - a] (step^[a + 1] m) := by
      rw [← Function.iterate_add_apply]
      congr 1
      omega
    rw [hsplit]
    exact lt_iterate_of_lt_step step hstep (b - a) (by omega) _

/-- Witness for C1 at the series `[3, 7, 5]`, offset `+2`, horizon 3. -/
theorem horizon_timestamps_correct_witness :
    ∃ m ts, seriesMax [3, 7, 5] = some m ∧
      horizonTimestamps (fun t => t + 2) 3 [3, 7, 5] = some ts ∧
      ts.length = 3 ∧
      ts.head? = some ((fun t => t + 2) m) ∧
      (∀ i : Nat, (h : i + 1 < ts.length) →
        ts.get ⟨i + 1, h⟩ = (fun t => t + 2) (ts.get ⟨i, Nat.lt_of_succ_lt h⟩)) ∧
      ts.Pairwise (· < ·) :=
  horizon_timestamps_correct (fun t => t + 2) 3 [3, 7, 5] (by decide)
    (by decide) (fun t => by show t < t + 2; omega)

/-- Python negative slicing `context[-n:]` for a list of at least `n`
elements: the suffix of length `n`. -/
def pyTakeLast (n : Nat) (l : List ℚ) : List ℚ := l.drop (l.length - n)

/-- Context-buffer and input-mask construction from `create_predict_udf`
(MomentPipeline.py lines 122-128): for a series shorter than 512, the mask is
ones for the real values then zeros, and the context is the series
zero-padded on the right to 512; otherwise the mask is 512 ones and the
context is `context[-512:]`. -/
def momentContextMask (series : List ℚ) : List ℚ × List Nat :=
  if series.length < 512 then
    (series ++ List.replicate (512 - series.length) 0,
     List.replicate series.length 1 ++ List.replicate (512 - series.length) 0)
  else
    (pyTakeLast 512 series, List.replicate 512 1)

/-- C2: in the fixed-context (Moment) variant, a series of length n < 512
yields a context equal to the series followed by 512 - n zeros and a mask of
n ones followed by 512 - n zeros; a series of length at least 512 yields a
context equal to the last 512 values (the length-512 suffix) and a mask of
512 ones. -/
theorem moment_context_mask_correct (series : List ℚ) :
    (series.length < 512 →
      (momentContextMask series).1 =
          series ++ List.replicate (512 - series.length) 0 ∧
      (momentContextMask series).2 =
          List.replicate series.length 1 ++
            List.replicate (512 - series.length) 0 ∧
      (momentContextMask series).1.length = 512 ∧
      (momentContextMask series).2.length = 512) ∧
    (512 ≤ series.length →
      (momentContextMask series).1.length = 512 ∧
      series.take (series.length - 512) ++ (momentContextMask series).1 =
          series ∧
      (momentContextMask series).2 = List.replicate 512 1) := by
  constructor
  · intro h
    rw [momentContextMask, if_pos h]
    refine ⟨rfl, rfl, ?_, ?_⟩ <;> simp <;> omega
  · intro h
    rw [momentContextMask, if_neg (by omega)]
    refine ⟨?_, ?_, rfl⟩
    · simp [pyTakeLast]
      omega
    · simp only [pyTakeLast]
      exact List.take_append_drop _ _

/-- Witness for C2 at the two-element series `[5, 7]`. -/
theorem moment_context_mask_correct_witness :
    (([(5 : ℚ), 7].length < 512 →
      (momentContextMask [5, 7]).1 =
          [(5 : ℚ), 7] ++ List.replicate (512 - [(5 : ℚ), 7].length) 0 ∧
      (momentContextMask [5, 7]).2 =
          List.replicate [(5 : ℚ), 7].length 1 ++
            List.replicate (512 - [(5 : ℚ), 7].length) 0 ∧
      (momentContextMask [(5 : ℚ), 7]).1.length = 512 ∧
      (momentContextMask [(5 : ℚ), 7]).2.length = 512) ∧
    (512 ≤ [(5 : ℚ), 7].length →
      (momentContextMask [(5 : ℚ), 7]).1.length = 512 ∧
      [(5 : ℚ), 7].take ([(5 : ℚ), 7].length - 512) ++
          (momentContextMask [(5 : ℚ), 7]).1 = [(5 : ℚ), 7] ∧
      (momentContextMask [(5 : ℚ), 7]).2 = List.replicate 512 1)) :=
  moment_context_mask_correct [5, 7]

/-- Per-element effectful traversal with fail-fast semantics: a Python loop
whose body may raise, aborting the whole call with no partial output. -/
def optTraverse (g : α → Option β) : List α → Option (List β)
  | [] => some []
  | x :: xs =>
    match g x, optTraverse g xs with
    | some y, some ys => some (y :: ys)
    | _, _ => none

/-- Output of `horizon_timestamps_udf` over a whole batch iterator
(MoiraiPipeline.py lines 27-37, identically MomentPipeline.py): the
accumulator `batch_horizon_timestamps` is initialized once before the batch
loop and extended for every series of every batch, and the single `yield`
happens after the loop, so the output has one entry per series across all
batches; an empty series raises inside the loop and aborts the call. -/
def horizonUDFOut (step : Int → Int) (predictionLength : Nat)
    (batches : List (List (List Int))) : Option (List (List Int)) :=
  optTraverse (horizonTimestamps step predictionLength) batches.flatten

/-- Output of the forecast `predict_udf` over a whole batch iterator
(MoiraiPipeline.py lines 159-188 and MomentPipeline.py lines 118-134, with
the per-series model invocation abstracted as `f`): the accumulator
(`median` resp. `batch_forecast`) is re-initialized at the top of each batch
iteration and the single `yield` happens after the loop, so only the final
batch's forecasts are emitted; on an empty iterator the accumulator name is
unbound (`none`). -/
def forecastUDFOut (f : List ℚ → List ℚ) (batches : List (List (List ℚ))) :
    Option (List (List ℚ)) :=
  batches.foldl (fun _ batch => some (batch.map f)) none

/-- The forecast UDF fold keeps only the final batch, whatever the
accumulator held before. -/
theorem forecastUDFOut_foldl_eq_last (f : List ℚ → List ℚ) :
    ∀ (batches : List (List (List ℚ))) (init : Option (List (List ℚ))),
      batches ≠ [] →
      ∃ lastBatch, batches.getLast? = some lastBatch ∧
        batches.foldl (fun _ batch => some (batch.map f)) init =
          some (lastBatch.map f) := by
  intro batches
  induction batches with
  | nil => intro _ hne; exact absurd rfl hne
  | cons b rest ih =>
    intro init _
    cases rest with
    | nil => exact ⟨b, rfl, rfl⟩
    | cons c cs =>
      obtain ⟨lb, hlb, hfold⟩ := ih (some (b.map f)) (by simp)
      refine ⟨lb, ?_, ?_⟩
      · rw [List.getLast?_cons_cons]; exact hlb
      · rw [List.foldl_cons]; exact hfold

/-- Fail-fast traversal fails as soon as one element fails. -/
theorem optTraverse_eq_none_of_mem (g : α → Option β) (l : List α) (x : α)
    (hx : x ∈ l) (hg : g x = none) : optTraverse g l = none := by
  induction l with
  | nil => cases hx
  | cons a as ih =>
    rcases List.mem_cons.mp hx with rfl | hmem
    · rw [optTraverse, hg]
    · rw [optTraverse]
      rw [ih hmem]
      cases g a <;> rfl

/-- Fail-fast traversal succeeds with one output per element when every
element succeeds. -/
theorem optTraverse_eq_some_of_forall (g : α → Option β) (l : List α)
    (hl : ∀ x ∈ l, ∃ y, g x = some y) :
    ∃ out, optTraverse g l = some out ∧ out.length = l.length := by
  induction l with
  | nil => exact ⟨[], rfl, rfl⟩
  | cons a as ih =>
    obtain ⟨y, hy⟩ := hl a (List.mem_cons_self a as)
    obtain ⟨out, hout, hlen⟩ := ih (fun x hx => hl x (List.mem_cons_of_mem a hx))
    exact ⟨y :: out, by rw [optTraverse, hy, hout], by simp [hlen]⟩

/-- A non-empty series always yields horizon timestamps. -/
theorem horizonTimestamps_isSome (step : Int → Int) (predictionLength : Nat)
    (series : List Int) (hne : series ≠ []) :
    ∃ ts, horizonTimestamps step predictionLength series = some ts := by
  cases h : series.max? with
  | none => exact absurd (List.max?_eq_none_iff.mp h) hne
  | some m =>
    exact ⟨genHorizon step m predictionLength,
      by simp [horizonTimestamps, seriesMax, h]⟩

/-- C8: an empty timestamp series makes horizon generation raise (`max()` of
an empty array), and the enclosing UDF call aborts with no partial output
whenever any batch contains an empty series. -/
theorem empty_series_horizon_fatal (step : Int → Int) (predictionLength : Nat)
    (batches : List (List (List Int))) (hmem : ∃ b ∈ batches, [] ∈ b) :
    horizonTimestamps step predictionLength [] = none ∧
    horizonUDFOut step predictionLength batches = none := by
  refine ⟨rfl, ?_⟩
  obtain ⟨b, hb, hemp⟩ := hmem
  exact optTraverse_eq_none_of_mem _ _ []
    (List.mem_flatten.mpr ⟨b, hb, hemp⟩) rfl

/-- Witness for C8: a two-series batch whose second series is empty. -/
theorem empty_series_horizon_fatal_witness :
    horizonTimestamps (fun t => t + 1) 2 [] = none ∧
    horizonUDFOut (fun t => t + 1) 2 [[[1], []]] = none :=
  empty_series_horizon_fatal (fun t => t + 1) 2 [[[1], []]]
    ⟨[[1], []], by simp, by simp⟩

/-- An element named by `getLast?` is a member of the list. -/
theorem mem_of_getLast?_eq_some {l : List (List (List Int × List ℚ))}
    {a : List (List Int × List ℚ)} (h : l.getLast? = some a) : a ∈ l := by
  obtain ⟨ys, rfl⟩ := List.getLast?_eq_some_iff.mp h
  simp

/-- C3: over an input iterator holding more than one (non-empty) batch of
series, the forecast UDF emits only the final batch's forecasts while the
horizon-timestamp UDF emits one entry per series across all batches, so the
two outputs have different lengths.  Each series carries its timestamp list
(`.1`, fed to the horizon UDF) and its value list (`.2`, fed to the forecast
UDF). -/
theorem udf_batch_accumulation_mismatch (f : List ℚ → List ℚ)
    (step : Int → Int) (predictionLength : Nat)
    (batches : List (List (List Int × List ℚ)))
    (h2 : 1 < batches.length)
    (hbne : ∀ b ∈ batches, b ≠ [])
    (hsne : ∀ b ∈ batches, ∀ p ∈ b, p.1 ≠ []) :
    ∃ lastBatch fc hz,
      batches.getLast? = some lastBatch ∧
      forecastUDFOut f (batches.map (fun b => b.map (fun p => p.2))) =
          some fc ∧
      fc = lastBatch.map (fun p => f p.2) ∧
      horizonUDFOut step predictionLength
          (batches.map (fun b => b.map (fun p => p.1))) = some hz ∧
      hz.length = (batches.map List.length).sum ∧
      fc.length ≠ hz.length := by
  have hbatchesne : batches ≠ [] := by
    intro h; subst h; simp at h2
  obtain ⟨lb, hlb, hfold⟩ :=
    forecastUDFOut_foldl_eq_last f (batches.map (fun b => b.map (fun p => p.2)))
      none (by simpa using hbatchesne)
  rw [List.getLast?_map] at hlb
  obtain ⟨lastBatch, hlast, rfl⟩ : ∃ lastBatch,
      batches.getLast? = some lastBatch ∧ lb = lastBatch.map (fun p => p.2) := by
    cases h : batches.getLast? with
    | none => rw [h] at hlb; cases hlb
    | some lastBatch =>
      rw [h] at hlb
      exact ⟨lastBatch, rfl, by injection hlb.symm⟩
  obtain ⟨hz, hhz, hhzlen⟩ :=
    optTraverse_eq_some_of_forall (horizonTimestamps step predictionLength)
      (batches.map (fun b => b.map (fun p => p.1))).flatten (by
        intro s hs
        obtain ⟨mb, hmb, hsmb⟩ := List.mem_flatten.mp hs
        obtain ⟨b, hb, rfl⟩ := List.mem_map.mp hmb
        obtain ⟨p, hp, rfl⟩ := List.mem_map.mp hsmb
        exact horizonTimestamps_isSome step predictionLength p.1
          (hsne b hb p hp))
  have hzlen : hz.length = (batches.map List.length).sum := by
    rw [hhzlen, List.length_flatten, List.map_map]
    congr 1
    apply List.map_congr_left
    intro b _
    simp
  refine ⟨lastBatch, (lastBatch.map (fun p => p.2)).map f, hz, hlast,
    by exact hfold, by rw [List.map_map]; rfl, hhz, hzlen, ?_⟩
  rw [hzlen, List.length_map, List.length_map]
  obtain ⟨b0, rest, rfl⟩ : ∃ b0 rest, batches = b0 :: rest := by
    cases batches with
    | nil => simp at h2
    | cons b0 rest => exact ⟨b0, rest, rfl⟩
  have hrestne : rest ≠ [] := by
    intro h; subst h; simp at h2
  have hlastmem : lastBatch ∈ rest := by
    apply mem_of_getLast?_eq_some
    cases rest with
    | nil => exact absurd rfl hrestne
    | cons c cs => rw [← @List.getLast?_cons_cons _ b0 c cs]; exact hlast
  have hle : lastBatch.length ≤ (rest.map List.length).sum :=
    List.single_le_sum (fun x _ => Nat.zero_le x) _
      (List.mem_map.mpr ⟨lastBatch, hlastmem, rfl⟩)
  have hb0 : 0 < b0.length :=
    List.length_pos.mpr (hbne b0 (List.mem_cons_self b0 rest))
  simp only [List.map_cons, List.sum_cons]
  omega

/-- Witness for C3: two one-series batches. -/
theorem udf_batch_accumulation_mismatch_witness :
    ∃ lastBatch fc hz,
      [[([(1 : Int)], [(2 : ℚ)])], [([(3 : Int)], [(4 : ℚ)])]].getLast? =
          some lastBatch ∧
      forecastUDFOut id
          ([[([(1 : Int)], [(2 : ℚ)])], [([(3 : Int)], [(4 : ℚ)])]].map
            (fun b => b.map (fun p => p.2))) = some fc ∧
      fc = lastBatch.map (fun p => id p.2) ∧
      horizonUDFOut (fun t => t + 1) 2
          ([[([(1 : Int)], [(2 : ℚ)])], [([(3 : Int)], [(4 : ℚ)])]].map
            (fun b => b.map (fun p => p.1))) = some hz ∧
      hz.length =
          ([[([(1 : Int)], [(2 : ℚ)])], [([(3 : Int)], [(4 : ℚ)])]].map
            List.length).sum ∧
      fc.length ≠ hz.length :=
  udf_batch_accumulation_mismatch id (fun t => t + 1) 2
    [[([1], [2])], [([3], [4])]] (by decide) (by decide) (by decide)

/-- Grouping step of `prepare_data` (MoiraiPipeline.py lines 40-48,
identically MomentPipeline.py): one output row per entity key, holding the
arrival-ordered list of that entity's timestamps (`collect_list` into `ds`)
and the aligned list of its values (`collect_list` into `y`). -/
def groupRows {κ τ ν : Type} [DecidableEq κ] :
    List (κ × τ × ν) → List (κ × List τ × List ν)
  | [] => []
  | (k, d, v) :: rest =>
    (k, d :: (rest.filter (fun r => decide (r.1 = k))).map (fun r => r.2.1),
        v :: (rest.filter (fun r => decide (r.1 = k))).map (fun r => r.2.2)) ::
      groupRows (rest.filter (fun r => !decide (r.1 = k)))
  termination_by l => l.length
  decreasing_by
    simp only [List.length_cons]
    exact Nat.lt_succ_of_le (List.length_filter_le _ _)

/-- Flattening a grouped table back to one row per (entity, timestamp,
value) triple, pairing each timestamp with its aligned value. -/
def flattenGroups {κ τ ν : Type} (gs : List (κ × List τ × List ν)) :
    List (κ × τ × ν) :=
  gs.flatMap (fun g => (g.2.1.zip g.2.2).map (fun p => (g.1, p.1, p.2)))

/-- Flattening the grouped table is a permutation of the original rows,
regardless of input order. -/
theorem flattenGroups_groupRows_perm {κ τ ν : Type} [DecidableEq κ] :
    ∀ (n : Nat) (rows : List (κ × τ × ν)), rows.length ≤ n →
      (flattenGroups (groupRows rows)).Perm rows := by
  intro n
  induction n with
  | zero =>
    intro rows h
    have hnil : rows = [] := List.eq_nil_of_length_eq_zero (Nat.le_zero.mp h)
    subst hnil
    rw [groupRows]
    exact List.Perm.refl _
  | succ n ih =>
    intro rows h
    cases rows with
    | nil => rw [groupRows]; exact List.Perm.refl _
    | cons r rest =>
      obtain ⟨k, d, v⟩ := r
      rw [groupRows]
      rw [flattenGroups, List.flatMap_cons]
      have hzip :
          (((rest.filter (fun r => decide (r.1 = k))).map (fun r => r.2.1)).zip
            ((rest.filter (fun r => decide (r.1 = k))).map (fun r => r.2.2))) =
          (rest.filter (fun r => decide (r.1 = k))).map
            (fun r => (r.2.1, r.2.2)) := List.zip_map' _ _ _
      simp only [List.zip_cons_cons, List.map_cons, hzip, List.map_map]
      have hsame : (rest.filter (fun r => decide (r.1 = k))).map
          ((fun p => (k, p.1, p.2)) ∘ (fun r => (r.2.1, r.2.2))) =
          rest.filter (fun r => decide (r.1 = k)) := by
        rw [List.map_congr_left (g := id), List.map_id]
        intro r hr
        have hk : r.1 = k := by
          have := List.of_mem_filter hr
          exact of_decide_eq_true this
        show (k, r.2.1, r.2.2) = r
        rw [← hk]
      rw [hsame]
      refine List.Perm.cons _ ?_
      have hrec : (flattenGroups
          (groupRows (rest.filter (fun r => !decide (r.1 = k))))).Perm
          (rest.filter (fun r => !decide (r.1 = k))) :=
        ih _ (Nat.le_trans (List.length_filter_le _ _)
          (Nat.le_of_succ_le_succ h))
      exact ((hrec.append_left _).trans
        (List.filter_append_perm (fun r => decide (r.1 = k)) rest))

/-- C7: for a row table that is sorted by timestamp within each entity and
has unique (entity, timestamp) pairs, grouping by entity and flattening back
reproduces exactly the original set of (entity, timestamp, value) triples. -/
theorem group_flatten_roundtrip {κ τ ν : Type} [DecidableEq κ] [LinearOrder τ]
    (rows : List (κ × τ × ν))
    (_hsorted : rows.Pairwise (fun r s => r.1 = s.1 → r.2.1 < s.2.1))
    (_hunique : (rows.map (fun r => (r.1, r.2.1))).Nodup) :
    (flattenGroups (groupRows rows)).Perm rows ∧
    (∀ r, r ∈ flattenGroups (groupRows rows) ↔ r ∈ rows) := by
  have hperm := flattenGroups_groupRows_perm rows.length rows (Nat.le_refl _)
  exact ⟨hperm, fun r => hperm.mem_iff⟩

/-- Witness for C7 on a three-row table with two entities. -/
theorem group_flatten_roundtrip_witness :
    (flattenGroups (groupRows
        [((0 : Nat), (1 : Nat), (10 : Nat)), (0, 2, 20), (1, 1, 5)])).Perm
      [(0, 1, 10), (0, 2, 20), (1, 1, 5)] ∧
    (∀ r, r ∈ flattenGroups (groupRows
        [((0 : Nat), (1 : Nat), (10 : Nat)), (0, 2, 20), (1, 1, 5)]) ↔
      r ∈ [(0, 1, 10), (0, 2, 20), (1, 1, 5)]) :=
  group_flatten_roundtrip [(0, 1, 10), (0, 2, 20), (1, 1, 5)]
    (by decide) (by decide)

/-- Pretrained repository identifier set by the `MoiraiSmall` constructor
(MoiraiPipeline.py line 126). -/
def moiraiSmallRepo : String := "Salesforce/moirai-1.0-R-small"

/-- Pretrained repository identifier set by the `MoiraiBase` constructor
(MoiraiPipeline.py line 134). -/
def moiraiBaseRepo : String := "Salesforce/moirai-1.0-R-base"

/-- Pretrained repository identifier set by the `MoiraiLarge` constructor
(MoiraiPipeline.py line 142). -/
def moiraiLargeRepo : String := "Salesforce/moirai-1.0-R-base"

/-- C10: the large Moirai variant is constructed with the same pretrained
repository identifier as the base variant, so it loads the base checkpoint
and never the large one (it is not even the small one). -/
theorem moirai_large_repo_eq_base :
    moiraiLargeRepo = moiraiBaseRepo ∧
    moiraiLargeRepo = "Salesforce/moirai-1.0-R-base" ∧
    moiraiLargeRepo ≠ moiraiSmallRepo :=
  ⟨rfl, rfl, by decide⟩

/-- Machine-epsilon denominator guard of the external sktime metric,
`np.finfo(np.float64).eps`. -/
def smapeEPS : ℚ := 1 / 2 ^ 52

/-- One aligned term of the symmetric percentage error of the external
sktime metric: twice the absolute error over the guarded sum of absolute
values. -/
def smapeTerm (a f : ℚ) : ℚ := 2 * |a - f| / max (|a| + |f|) smapeEPS

/-- the sktime call `mean_absolute_percentage_error(actual, forecast,
symmetric=True)` (external library, invoked at MoiraiPipeline.py line 105 and
MomentPipeline.py line 98) on equal-length arrays: the mean of the symmetric
percentage errors. -/
def smape (actual forecast : List ℚ) : ℚ :=
  ((actual.zip forecast).map (fun p => smapeTerm p.1 p.2)).sum /
    (actual.length : ℚ)

/-- the same sktime call including its input validation: it raises (here
`none`) when the arrays have different lengths or are empty. -/
def smapeChecked (actual forecast : List ℚ) : Option ℚ :=
  if actual.length = forecast.length ∧ actual ≠ [] then
    some (smape actual forecast)
  else
    none

/-- Metric tuple appended per entity by `calculate_metrics`
(MoiraiPipeline.py lines 106-115): key, evaluation date, metric name, metric
value, actuals, forecast, and the reserved empty-bytes blob. -/
structure MetricRecord (κ τ : Type) where
  key : κ
  curr_date : τ
  metric_name : String
  metric_value : ℚ
  actual : List ℚ
  forecast : List ℚ
  blob : List Nat

/-- the post-predict part of `calculate_metrics` (MoiraiPipeline.py lines
94-118, identically MomentPipeline.py lines 87-111): any metric other than
"smape" raises before the per-entity loop; per entity the metric is computed
under a bare try/except, so a failing entity is silently skipped and
contributes no record. `keys` are the distinct group ids of the prediction
frame; `actualOf` and `forecastOf` model the per-key array extraction from
`val_df` and `pred_df`. -/
def calculateMetrics {κ τ : Type} (metric : String) (currDate : τ)
    (keys : List κ) (actualOf forecastOf : κ → List ℚ) :
    Except String (List (MetricRecord κ τ)) :=
  if metric = "smape" then
    Except.ok (keys.filterMap (fun k =>
      (smapeChecked (actualOf k) (forecastOf k)).map (fun v =>
        ⟨k, currDate, "smape", v, actualOf k, forecastOf k, []⟩)))
  else
    Except.error ("Metric " ++ metric ++ " not supported!")

/-- C5: any configured metric name other than "smape" makes
`calculate_metrics` raise before any per-entity metric computation — the
error is the same for every key set and every per-entity data. -/
theorem calculate_metrics_unsupported_metric {κ τ : Type} (metric : String)
    (currDate : τ) (keys : List κ) (actualOf forecastOf : κ → List ℚ)
    (hm : metric ≠ "smape") :
    calculateMetrics metric currDate keys actualOf forecastOf =
      Except.error ("Metric " ++ metric ++ " not supported!") := by
  rw [calculateMetrics, if_neg hm]

/-- Witness for C5 with the metric name "mape". -/
theorem calculate_metrics_unsupported_metric_witness :
    calculateMetrics "mape" (0 : Nat) ["A"] (fun _ => [1]) (fun _ => [1]) =
      Except.error ("Metric " ++ "mape" ++ " not supported!") :=
  calculate_metrics_unsupported_metric "mape" 0 ["A"] (fun _ => [1])
    (fun _ => [1]) (by decide)

/-- C4: if the metric computation fails for one entity, `calculate_metrics`
still returns normally, omits every record for that entity, and keeps a
record for every entity whose computation succeeded. -/
theorem calculate_metrics_omits_failing {κ τ : Type} (currDate : τ)
    (keys : List κ) (actualOf forecastOf : κ → List ℚ) (k0 : κ)
    (h0 : smapeChecked (actualOf k0) (forecastOf k0) = none) :
    ∃ l, calculateMetrics "smape" currDate keys actualOf forecastOf =
        Except.ok l ∧
      (∀ r ∈ l, r.key ≠ k0) ∧
      (∀ k ∈ keys, ∀ v, smapeChecked (actualOf k) (forecastOf k) = some v →
        ∃ r ∈ l, r.key = k ∧ r.metric_value = v ∧ r.metric_name = "smape" ∧
          r.actual = actualOf k ∧ r.forecast = forecastOf k) := by
  refine ⟨_, by rw [calculateMetrics, if_pos rfl], ?_, ?_⟩
  · intro r hr
    obtain ⟨k, _, hg⟩ := List.mem_filterMap.mp hr
    obtain ⟨v, hv, rfl⟩ := Option.map_eq_some'.mp hg
    intro hkey
    simp only at hkey
    rw [hkey, h0] at hv
    cases hv
  · intro k hk v hv
    refine ⟨⟨k, currDate, "smape", v, actualOf k, forecastOf k, []⟩,
      List.mem_filterMap.mpr ⟨k, hk, by rw [hv]; rfl⟩,
      rfl, rfl, rfl, rfl, rfl⟩

/-- Witness for C4: entity "B" has an empty actual array, so its metric
computation fails, while entity "A" succeeds. -/
theorem calculate_metrics_omits_failing_witness :
    ∃ l, calculateMetrics "smape" (0 : Nat) ["A", "B"]
        (fun k => if k = "A" then [1, 2] else [])
        (fun k => if k = "A" then [1, 2] else [3]) = Except.ok l ∧
      (∀ r ∈ l, r.key ≠ "B") ∧
      (∀ k ∈ ["A", "B"], ∀ v,
        smapeChecked ((fun k => if k = "A" then [(1 : ℚ), 2] else []) k)
          ((fun k => if k = "A" then [(1 : ℚ), 2] else [3]) k) = some v →
        ∃ r ∈ l, r.key = k ∧ r.metric_value = v ∧ r.metric_name = "smape" ∧
          r.actual = (fun k => if k = "A" then [(1 : ℚ), 2] else []) k ∧
          r.forecast = (fun k => if k = "A" then [(1 : ℚ), 2] else [3]) k) :=
  calculate_metrics_omits_failing 0 ["A", "B"]
    (fun k => if k = "A" then [1, 2] else [])
    (fun k => if k = "A" then [1, 2] else [3]) "B" (by decide)

/-- Symmetric percentage error of a list against itself is zero: every
aligned numerator vanishes. -/
theorem smape_self (a : List ℚ) : smape a a = 0 := by
  rw [smape]
  have hz : a.zip a = a.map (fun x => (x, x)) := by
    conv_lhs => rw [← List.map_id a]
    rw [List.zip_map']
    rfl
  rw [hz, List.map_map]
  have hsum : (a.map ((fun p : ℚ × ℚ => smapeTerm p.1 p.2) ∘
      (fun x => (x, x)))).sum = 0 := by
    apply List.sum_eq_zero
    intro x hx
    obtain ⟨y, _, rfl⟩ := List.mem_map.mp hx
    show smapeTerm y y = 0
    rw [smapeTerm, sub_self, abs_zero, mul_zero, zero_div]
  rw [hsum, zero_div]

/-- C9: an entity whose actual and forecast arrays are equal, non-empty and
non-zero gets a record with metric value 0 under the "smape" metric. -/
theorem calculate_metrics_equal_series_zero {κ τ : Type} (currDate : τ)
    (keys : List κ) (actualOf forecastOf : κ → List ℚ) (k : κ)
    (hk : k ∈ keys) (heq : actualOf k = forecastOf k)
    (hne : actualOf k ≠ []) (_hnz : ∀ x ∈ actualOf k, x ≠ 0) :
    ∃ l, calculateMetrics "smape" currDate keys actualOf forecastOf =
        Except.ok l ∧
      ∃ r ∈ l, r.key = k ∧ r.metric_name = "smape" ∧ r.metric_value = 0 := by
  have hck : smapeChecked (actualOf k) (forecastOf k) = some 0 := by
    rw [← heq, smapeChecked, if_pos ⟨rfl, hne⟩, smape_self]
  refine ⟨_, by rw [calculateMetrics, if_pos rfl], ?_⟩
  exact ⟨⟨k, currDate, "smape", 0, actualOf k, forecastOf k, []⟩,
    List.mem_filterMap.mpr ⟨k, hk, by rw [hck]; rfl⟩, rfl, rfl, rfl⟩

/-- Witness for C9 at the spec's example: actuals `[10, 10, 10]` against
forecast `[10, 10, 10]`. -/
theorem calculate_metrics_equal_series_zero_witness :
    ∃ l, calculateMetrics "smape" (0 : Nat) ["A"]
        (fun _ => [10, 10, 10]) (fun _ => [10, 10, 10]) = Except.ok l ∧
      ∃ r ∈ l, r.key = "A" ∧ r.metric_name = "smape" ∧ r.metric_value = 0 :=
  calculate_metrics_equal_series_zero 0 ["A"] (fun _ => [10, 10, 10])
    (fun _ => [10, 10, 10]) "A" (by decide) rfl (by decide) (by decide)

/-- Constructor arguments of the per-series `MoiraiForecast` wrapper
(MoiraiPipeline.py lines 162-171). -/
structure MoiraiForecastConfig where
  prediction_length : Nat
  context_length : Nat
  patch_size : Nat
  num_samples : Nat
  target_dim : Nat
  feat_dynamic_real_dim : Nat
  past_feat_dynamic_real_dim : Nat

/-- the einops call `rearrange(tensor, "t -> 1 t 1")` (MoiraiPipeline.py
lines 174-176): a length-t vector becomes a (1, t, 1) tensor. -/
def rearrangeT1T1 (xs : List ℚ) : List (List (List ℚ)) := [xs.map (fun x => [x])]

/-- `torch.ones_like(past_target, dtype=torch.bool)` (line 178). -/
def onesLike3 (t : List (List (List ℚ))) : List (List (List Bool)) :=
  t.map (fun m => m.map (fun r => r.map (fun _ => true)))

/-- `torch.zeros_like(past_target, dtype=torch.bool)` (line 180). -/
def zerosLike3 (t : List (List (List ℚ))) : List (List (List Bool)) :=
  t.map (fun m => m.map (fun r => r.map (fun _ => false)))

/-- `tensor.squeeze(-1)` (line 180): drop the trailing dimension of size
one. -/
def squeezeLast (t : List (List (List Bool))) : List (List Bool) :=
  t.map (fun m => m.map (fun r => r.headI))

/-- numpy median of a vector: middle element of the sorted vector for odd
length, mean of the two middle elements for even length. -/
def npMedian (l : List ℚ) : ℚ :=
  let s := l.insertionSort (· ≤ ·)
  if l.length % 2 = 1 then s.getD (l.length / 2) 0
  else (s.getD (l.length / 2 - 1) 0 + s.getD (l.length / 2) 0) / 2

/-- `np.median(m, axis=0)` for a rectangular (samples, steps) matrix: the
per-step median across the sample axis. -/
def npMedianAxis0 (m : List (List ℚ)) : List ℚ :=
  match m with
  | [] => []
  | r0 :: _ =>
    (List.range r0.length).map (fun j => npMedian (m.map (fun row => row.getD j 0)))

/-- Per-series inference step of the Moirai `predict_udf` (MoiraiPipeline.py
lines 161-187), with the pretrained model abstracted as `model`, a function
of the wrapper configuration and the three input tensors returning the
sample tensor of shape (1, num_samples, prediction_length): build the
wrapper configured with the series length as context length, the (1, t, 1)
target, the all-true observed mask, the squeezed all-false padding mask, run
the model, and reduce `forecast[0]` by the per-step median across samples. -/
def moiraiPredictSeries
    (model : MoiraiForecastConfig → List (List (List ℚ)) →
      List (List (List Bool)) → List (List Bool) → List (List (List ℚ)))
    (prediction_length patch_size num_samples : Nat) (series : List ℚ) :
    List ℚ :=
  let cfg : MoiraiForecastConfig :=
    ⟨prediction_length, series.length, patch_size, num_samples, 1, 0, 0⟩
  let past_target := rearrangeT1T1 series
  let past_observed_target := onesLike3 past_target
  let past_is_pad := squeezeLast (zerosLike3 past_target)
  npMedianAxis0 ((model cfg past_target past_observed_target past_is_pad).headI)

/-- C6: in the variable-context (Moirai) variant the wrapper is configured
with `context_length = len(series)` (and 1 target channel, 0 dynamic
feature channels); the target tensor is the series reshaped to (1, t, 1);
the observed mask is all-true of that same shape; the padding indicator is
all-false of shape (1, t); and the point forecast is the element-wise median
across the sample axis of the model's output samples. -/
theorem moirai_per_series_correct
    (model : MoiraiForecastConfig → List (List (List ℚ)) →
      List (List (List Bool)) → List (List Bool) → List (List (List ℚ)))
    (prediction_length patch_size num_samples : Nat) (series : List ℚ) :
    moiraiPredictSeries model prediction_length patch_size num_samples series =
      npMedianAxis0 ((model
        ⟨prediction_length, series.length, patch_size, num_samples, 1, 0, 0⟩
        [series.map (fun x => [x])]
        [series.map (fun _ => [true])]
        [series.map (fun _ => false)]).headI) ∧
    (rearrangeT1T1 series).length = 1 ∧
    (∀ m ∈ rearrangeT1T1 series,
      m.length = series.length ∧ ∀ r ∈ m, r.length = 1) ∧
    onesLike3 (rearrangeT1T1 series) = [series.map (fun _ => [true])] ∧
    squeezeLast (zerosLike3 (rearrangeT1T1 series)) =
      [series.map (fun _ => false)] := by
  have hones : onesLike3 (rearrangeT1T1 series) =
      [series.map (fun _ => [true])] := by
    rw [rearrangeT1T1, onesLike3]
    simp only [List.map_cons, List.map_nil, List.map_map]
    exact congrArg (fun l => [l]) (List.map_congr_left fun x _ => rfl)
  have hpad : squeezeLast (zerosLike3 (rearrangeT1T1 series)) =
      [series.map (fun _ => false)] := by
    rw [rearrangeT1T1, zerosLike3, squeezeLast]
    simp only [List.map_cons, List.map_nil, List.map_map]
    exact congrArg (fun l => [l]) (List.map_congr_left fun x _ => rfl)
  refine ⟨?_, rfl, ?_, hones, hpad⟩
  · rw [moiraiPredictSeries]
    rw [hones, hpad]
    rfl
  · intro m hm
    rw [rearrangeT1T1] at hm
    rcases List.mem_singleton.mp hm with rfl
    refine ⟨List.length_map _ _, ?_⟩
    intro r hr
    obtain ⟨x, _, rfl⟩ := List.mem_map.mp hr
    rfl
